import Mathlib

/-!
# Verification of the git-repo semantic-versioning module

Shallow embedding of the Go module that determines and pushes semantic
version tags (`parseVersion`, `determineBumpType`, `GetNextVersion`,
`TagAndPush`).  External effects (the `git` invocations that fetch the tag
list, read the latest commit subject, and create/push the tag) are modelled
as explicit inputs: an `Option String` is the stdout of a git command
(`none` when the command failed) and an `Option String` models the outcome
of the tag-create/push pipeline (`some e` when it failed with error `e`).
-/

namespace GitRepo

/-- Model of Go `strings.ToLower` restricted to the ASCII range relevant to
the bracketed markers: lower-case every character. -/
def toLowerChars (s : String) : List Char :=
  s.data.map Char.toLower

/-- `listStartsWith needle haystack` is `true` iff `needle` is an initial
segment of `haystack`. -/
def listStartsWith : List Char → List Char → Bool
  | [], _ => true
  | _ :: _, [] => false
  | c :: cs, d :: ds => if c = d then listStartsWith cs ds else false

/-- Model of Go `strings.Contains`: `true` iff `needle` occurs as a
contiguous substring of `haystack`. -/
def strContains (haystack needle : List Char) : Bool :=
  listStartsWith needle haystack ||
    match haystack with
    | [] => false
    | _ :: t => strContains t needle

/-- Embedding of `determineBumpType` (part_000 lines 193-214): lower-case the
commit messages, then test for the four bracketed markers in the source's
order, defaulting to `"minor"`.  Go's string-typed `BumpType` is modelled as
`String`. -/
def determineBumpType (commitMessages : String) : String :=
  let lowerMessages := toLowerChars commitMessages
  if strContains lowerMessages "[skip]".data then "skip"
  else if strContains lowerMessages "[major]".data then "major"
  else if strContains lowerMessages "[minor]".data then "minor"
  else if strContains lowerMessages "[patch]".data then "patch"
  else "minor"

/-- Maximal leading run of decimal digits and the remainder; models one
greedy `\d+` group of the regex `^(\d+)\.(\d+)\.(\d+)`. -/
def takeDigits : List Char → List Char × List Char
  | [] => ([], [])
  | c :: t =>
    if c.isDigit then (c :: (takeDigits t).1, (takeDigits t).2)
    else ([], c :: t)

/-- Model of Go `strconv.Atoi` on a digit string: base-10 value of the
digits. -/
def digitsToNat (l : List Char) : Nat :=
  l.foldl (fun acc c => acc * 10 + (c.toNat - 48)) 0

/-- Model of Go `strings.TrimPrefix(version, "v")`: drop one leading `v`
when present. -/
def stripLeadingV : List Char → List Char
  | 'v' :: t => t
  | l => l

/-- The regex part of `parseVersion`: match `^(\d+)\.(\d+)\.(\d+)` against
the character list (after the `v` is stripped) and return the three base-10
values, ignoring everything after the third digit group. -/
def parseVerChars (l : List Char) : Option (Nat × Nat × Nat) :=
  let p1 := takeDigits l
  if p1.1 = [] then none
  else
    match p1.2 with
    | [] => none
    | c1 :: r2 =>
      if c1 = '.' then
        let p2 := takeDigits r2
        if p2.1 = [] then none
        else
          match p2.2 with
          | [] => none
          | c2 :: r4 =>
            if c2 = '.' then
              let p3 := takeDigits r4
              if p3.1 = [] then none
              else some (digitsToNat p1.1, digitsToNat p2.1, digitsToNat p3.1)
            else none
      else none

/-- Embedding of `parseVersion` (part_000 lines 175-190): strip an optional
leading `v`, then match `^(\d+)\.(\d+)\.(\d+)`; `none` models the
`invalid version format` error. -/
def parseVersion (version : String) : Option (Nat × Nat × Nat) :=
  parseVerChars (stripLeadingV version.data)

/-- Decimal digit character for a value below ten. -/
def digitChar (n : Nat) : Char :=
  Char.ofNat (48 + n)

/-- Fuelled decimal printer: digits of `n`, most significant first, for
positive `n`; `fuel ≥ n` suffices. -/
def natDigitsAux : Nat → Nat → List Char
  | 0, _ => []
  | _ + 1, 0 => []
  | fuel + 1, n => natDigitsAux fuel (n / 10) ++ [digitChar (n % 10)]

/-- Model of `fmt.Sprintf("%d", n)` for a non-negative integer: standard
decimal notation. -/
def natToStr (n : Nat) : String :=
  if n = 0 then "0" else ⟨natDigitsAux n n⟩

/-- Model of `fmt.Sprintf("v%d.%d.%d", major, minor, patch)` (part_000
line 127). -/
def formatVersion (major minor patch : Nat) : String :=
  "v" ++ natToStr major ++ "." ++ natToStr minor ++ "." ++ natToStr patch

/-- The two failure modes of `GetNextVersion`: the sentinel
`ErrVersionBumpSkipped`, and the wrapped parse failure which carries the
offending tag string (`failed to parse version %s`). -/
inductive VersionError where
  | versionBumpSkipped : VersionError
  | invalidVersionFormat : String → VersionError
deriving DecidableEq, Repr

/-- Model of Go `strings.TrimSpace`: drop whitespace from both ends. -/
def trimChars (l : List Char) : List Char :=
  ((l.dropWhile Char.isWhitespace).reverse.dropWhile Char.isWhitespace).reverse

/-- Model of Go `strings.Split(s, "\n")`: the newline-separated pieces; the
result is never empty. -/
def splitLines : List Char → List (List Char)
  | [] => [[]]
  | c :: t =>
    if c = '\n' then [] :: splitLines t
    else
      match splitLines t with
      | [] => [[c]]
      | h :: r => (c :: h) :: r

/-- Extraction of the latest tag from the stdout of
`git tag -l --sort=-version:refname` (part_000 lines 73-89): on command
failure or blank output the tag defaults to `"v0.0.0"`, otherwise the first
line of the trimmed output, itself trimmed. -/
def extractLatestTag (tagFetch : Option String) : String :=
  match tagFetch with
  | none => "v0.0.0"
  | some out =>
    if trimChars out.data = [] then "v0.0.0"
    else
      match splitLines (trimChars out.data) with
      | [] => "v0.0.0"
      | line :: _ => ⟨trimChars line⟩

/-- Effective bump type (part_000 lines 96-108): a non-empty `forceBump` is
used verbatim; otherwise the commit subject is classified, an unreadable
subject (`none`, modelling a failed `git log`) leaving the default
`"minor"`. -/
def effectiveBump (commitMsg : Option String) (forceBump : String) : String :=
  if forceBump = "" then
    match commitMsg with
    | some msg => determineBumpType msg
    | none => "minor"
  else forceBump

/-- The `switch bumpType` arithmetic (part_000 lines 115-125): `major`,
`minor` and `patch` increment their component and zero the less significant
ones; any other string leaves the triple unchanged (no matching case). -/
def bumpTriple (major minor patch : Nat) (bumpType : String) : Nat × Nat × Nat :=
  if bumpType = "major" then (major + 1, 0, 0)
  else if bumpType = "minor" then (major, minor + 1, 0)
  else if bumpType = "patch" then (major, minor, patch + 1)
  else (major, minor, patch)

/-- Core of `GetNextVersion` after the latest tag has been extracted
(part_000 lines 91-127): parse, classify, short-circuit on `skip`, bump and
format. -/
def resolveVersion (latestTag : String) (commitMsg : Option String)
    (forceBump : String) : Except VersionError String :=
  match parseVersion latestTag with
  | none => .error (.invalidVersionFormat latestTag)
  | some (major, minor, patch) =>
    let bumpType := effectiveBump commitMsg forceBump
    if bumpType = "skip" then .error .versionBumpSkipped
    else
      let t := bumpTriple major minor patch bumpType
      .ok (formatVersion t.1 t.2.1 t.2.2)

/-- Embedding of `GetNextVersion` (part_000 lines 67-128), as a function of
the two git-command outcomes and the forced bump. -/
def GetNextVersion (tagFetch commitMsg : Option String)
    (forceBump : String) : Except VersionError String :=
  resolveVersion (extractLatestTag tagFetch) commitMsg forceBump

deriving instance DecidableEq for Except

/-- Result of `TagAndPush`: the returned value or wrapped error, together
with the tag name and annotation message actually given to the
`git tag`/`git push` pipeline (`none` when the pipeline was never
executed). -/
structure TagPushResult where
  result : Except String String
  pushedTag : Option (String × String)
deriving Repr, DecidableEq

/-- Embedding of `TagAndPush` (part_000 lines 132-172).  `pushOutcome`
models the external result of the `git tag -a … && git push origin …`
pipeline (`some e`: it failed with error `e`); the pipeline runs exactly
when a version is available, with the annotation defaulting to
`Release <version>`. -/
def TagAndPush (tagFetch commitMsg : Option String) (pushOutcome : Option String)
    (version forceBump message : String) : TagPushResult :=
  let run : String → TagPushResult := fun v =>
    let msg := if message = "" then "Release " ++ v else message
    match pushOutcome with
    | some e => ⟨.error ("failed to create and push tag: " ++ e), some (v, msg)⟩
    | none => ⟨.ok v, some (v, msg)⟩
  if version = "" then
    match GetNextVersion tagFetch commitMsg forceBump with
    | .error .versionBumpSkipped => ⟨.ok "", none⟩
    | .error (.invalidVersionFormat tag) =>
      ⟨.error ("failed to determine next version: failed to parse version "
        ++ tag), none⟩
    | .ok v => run v
  else run version

/-- Spec-side predicate: `l` decomposes as three maximal non-empty digit
runs separated by dots, followed by arbitrary trailing text, with the three
base-10 values as stated.  This is the meaning of matching the regex
`^(\d+)\.(\d+)\.(\d+)` and reading the groups in base 10. -/
def VersionDecomp (l : List Char) (a b c : Nat) : Prop :=
  ∃ d1 d2 d3 rest,
    l = d1 ++ '.' :: (d2 ++ '.' :: (d3 ++ rest)) ∧
    d1 ≠ [] ∧ d2 ≠ [] ∧ d3 ≠ [] ∧
    (∀ x ∈ d1, x.isDigit = true) ∧ (∀ x ∈ d2, x.isDigit = true) ∧
    (∀ x ∈ d3, x.isDigit = true) ∧
    (∀ x t, rest = x :: t → x.isDigit = false) ∧
    a = digitsToNat d1 ∧ b = digitsToNat d2 ∧ c = digitsToNat d3

/-- Spec-side predicate: `l` begins with a `\d+\.\d+\.\d+` prefix, any
trailing text permitted. -/
def HasVerPrefix (l : List Char) : Prop :=
  ∃ d1 d2 d3 rest,
    l = d1 ++ '.' :: (d2 ++ '.' :: (d3 ++ rest)) ∧
    d1 ≠ [] ∧ d2 ≠ [] ∧ d3 ≠ [] ∧
    (∀ x ∈ d1, x.isDigit = true) ∧ (∀ x ∈ d2, x.isDigit = true) ∧
    (∀ x ∈ d3, x.isDigit = true)

/-- Spec-side predicate: `needle` occurs somewhere in `haystack` as a
contiguous substring. -/
def OccursIn (needle haystack : List Char) : Prop :=
  ∃ s t, haystack = s ++ needle ++ t

/-- Spec-side relation: standard semantic-version strict ordering,
lexicographic on the `(major, minor, patch)` triple. -/
def semverLt (x y : Nat × Nat × Nat) : Prop :=
  x.1 < y.1 ∨ (x.1 = y.1 ∧ (x.2.1 < y.2.1 ∨ (x.2.1 = y.2.1 ∧ x.2.2 < y.2.2)))

end GitRepo

namespace GitRepo

theorem listStartsWith_iff : ∀ needle haystack : List Char,
    listStartsWith needle haystack = true ↔ ∃ t, haystack = needle ++ t := by
  intro n
  induction n with
  | nil => intro h; simp [listStartsWith]
  | cons c cs ih =>
    intro h
    cases h with
    | nil => simp [listStartsWith]
    | cons d ds =>
      rw [listStartsWith]
      by_cases hcd : c = d
      · subst hcd
        simp [ih]
      · simp [hcd, Ne.symm hcd]

theorem strContains_iff (haystack needle : List Char) :
    strContains haystack needle = true ↔ OccursIn needle haystack := by
  induction haystack with
  | nil =>
    rw [strContains]
    simp only [Bool.or_eq_true, listStartsWith_iff, OccursIn]
    constructor
    · rintro (⟨t, ht⟩ | h)
      · rcases List.append_eq_nil.mp ht.symm with ⟨rfl, rfl⟩
        exact ⟨[], [], rfl⟩
      · simp at h
    · rintro ⟨s, u, hsu⟩
      rcases List.append_eq_nil.mp hsu.symm with ⟨h1, rfl⟩
      rcases List.append_eq_nil.mp h1 with ⟨rfl, rfl⟩
      exact Or.inl ⟨[], rfl⟩
  | cons c t ih =>
    rw [strContains]
    simp only [Bool.or_eq_true, listStartsWith_iff, ih, OccursIn]
    constructor
    · rintro (⟨u, hu⟩ | ⟨s, u, hu⟩)
      · exact ⟨[], u, by simp [hu]⟩
      · exact ⟨c :: s, u, by simp [hu]⟩
    · rintro ⟨s, u, hu⟩
      cases s with
      | nil => exact Or.inl ⟨u, by simpa using hu⟩
      | cons x s =>
        obtain ⟨rfl, h2⟩ := List.cons.inj hu
        exact Or.inr ⟨s, u, h2⟩

theorem takeDigits_append : ∀ l : List Char, (takeDigits l).1 ++ (takeDigits l).2 = l := by
  intro l
  induction l with
  | nil => rfl
  | cons c t ih =>
    rw [takeDigits]
    by_cases h : c.isDigit
    · simp [h, ih]
    · simp [h]

theorem takeDigits_isDigit : ∀ l : List Char, ∀ c ∈ (takeDigits l).1, c.isDigit = true := by
  intro l
  induction l with
  | nil => simp [takeDigits]
  | cons a t ih =>
    rw [takeDigits]
    by_cases h : a.isDigit
    · simp only [if_pos h]
      intro x hx
      rcases List.mem_cons.mp hx with rfl | hx
      · exact h
      · exact ih x hx
    · simp [h]

theorem takeDigits_rest : ∀ (l : List Char) (c : Char) (t : List Char),
    (takeDigits l).2 = c :: t → c.isDigit = false := by
  intro l
  induction l with
  | nil => intro c t h; simp [takeDigits] at h
  | cons a l ih =>
    intro c t h
    rw [takeDigits] at h
    by_cases ha : a.isDigit
    · rw [if_pos ha] at h
      exact ih c t h
    · rw [if_neg ha] at h
      obtain ⟨rfl, -⟩ := List.cons.inj h
      simpa using ha

theorem takeDigits_all_digits : ∀ (d r : List Char),
    (∀ c ∈ d, c.isDigit = true) →
    takeDigits (d ++ r) = (d ++ (takeDigits r).1, (takeDigits r).2) := by
  intro d
  induction d with
  | nil => intro r _; rfl
  | cons a d ih =>
    intro r hd
    have ha : a.isDigit = true := hd a (List.mem_cons_self a d)
    have ih2 := ih r (fun c hc => hd c (List.mem_cons_of_mem a hc))
    rw [List.cons_append, takeDigits, if_pos ha, ih2]
    simp

theorem takeDigits_no_digit : ∀ r : List Char,
    (∀ c t, r = c :: t → c.isDigit = false) →
    takeDigits r = ([], r) := by
  intro r hr
  cases r with
  | nil => rfl
  | cons c t =>
    have hc : c.isDigit = false := hr c t rfl
    rw [takeDigits, if_neg (by simp [hc])]

theorem takeDigits_spec (d r : List Char)
    (hd : ∀ c ∈ d, c.isDigit = true)
    (hr : ∀ c t, r = c :: t → c.isDigit = false) :
    takeDigits (d ++ r) = (d, r) := by
  rw [takeDigits_all_digits d r hd, takeDigits_no_digit r hr]
  simp

theorem digitsToNat_append_single (l : List Char) (c : Char) :
    digitsToNat (l ++ [c]) = digitsToNat l * 10 + (c.toNat - 48) := by
  simp [digitsToNat, List.foldl_append]

theorem digitChar_toNat : ∀ m : Nat, m < 10 → (digitChar m).toNat = 48 + m := by decide

theorem digitChar_isDigit : ∀ m : Nat, m < 10 → (digitChar m).isDigit = true := by decide

end GitRepo

namespace GitRepo

theorem natDigitsAux_zero (fuel : Nat) : natDigitsAux fuel 0 = [] := by
  cases fuel <;> rfl

theorem natDigitsAux_val : ∀ fuel n : Nat, n ≤ fuel →
    digitsToNat (natDigitsAux fuel n) = n := by
  intro fuel
  induction fuel with
  | zero =>
    intro n hn
    have : n = 0 := Nat.le_zero.mp hn
    subst this
    rfl
  | succ fuel ih =>
    intro n hn
    cases n with
    | zero => rfl
    | succ m =>
      rw [show natDigitsAux (fuel + 1) (m + 1)
          = natDigitsAux fuel ((m + 1) / 10) ++ [digitChar ((m + 1) % 10)] from rfl,
        digitsToNat_append_single]
      have hdiv : (m + 1) / 10 ≤ fuel := by
        have := Nat.div_lt_self (Nat.succ_pos m) (by omega : 1 < 10)
        omega
      rw [ih ((m + 1) / 10) hdiv, digitChar_toNat ((m + 1) % 10) (Nat.mod_lt _ (by omega))]
      omega

theorem natDigitsAux_isDigit : ∀ fuel n : Nat, ∀ c ∈ natDigitsAux fuel n,
    c.isDigit = true := by
  intro fuel
  induction fuel with
  | zero => intro n c hc; simp [natDigitsAux] at hc
  | succ fuel ih =>
    intro n c hc
    cases n with
    | zero => simp [natDigitsAux] at hc
    | succ m =>
      rw [show natDigitsAux (fuel + 1) (m + 1)
          = natDigitsAux fuel ((m + 1) / 10) ++ [digitChar ((m + 1) % 10)] from rfl] at hc
      rcases List.mem_append.mp hc with hc | hc
      · exact ih _ c hc
      · rcases List.mem_singleton.mp hc with rfl
        exact digitChar_isDigit _ (Nat.mod_lt _ (by omega))

theorem natDigitsAux_ne_nil (fuel n : Nat) (h0 : 0 < n) (hf : n ≤ fuel) :
    natDigitsAux fuel n ≠ [] := by
  cases fuel with
  | zero => omega
  | succ fuel =>
    cases n with
    | zero => omega
    | succ m =>
      rw [show natDigitsAux (fuel + 1) (m + 1)
          = natDigitsAux fuel ((m + 1) / 10) ++ [digitChar ((m + 1) % 10)] from rfl]
      simp

theorem natToStr_data (n : Nat) :
    (natToStr n).data = if n = 0 then ['0'] else natDigitsAux n n := by
  by_cases h : n = 0
  · subst h; rfl
  · simp [natToStr, h]

theorem natToStr_isDigit (n : Nat) : ∀ c ∈ (natToStr n).data, c.isDigit = true := by
  rw [natToStr_data]
  by_cases h : n = 0
  · simp [h]
  · simp only [if_neg h]
    exact natDigitsAux_isDigit n n

theorem natToStr_ne_nil (n : Nat) : (natToStr n).data ≠ [] := by
  rw [natToStr_data]
  by_cases h : n = 0
  · simp [h]
  · simp only [if_neg h]
    exact natDigitsAux_ne_nil n n (Nat.pos_of_ne_zero h) le_rfl

theorem natToStr_val (n : Nat) : digitsToNat (natToStr n).data = n := by
  rw [natToStr_data]
  by_cases h : n = 0
  · subst h; rfl
  · simp only [if_neg h]
    exact natDigitsAux_val n n le_rfl

theorem formatVersion_data (a b c : Nat) :
    (formatVersion a b c).data =
      'v' :: ((natToStr a).data ++ '.' :: ((natToStr b).data ++ '.' :: (natToStr c).data)) := by
  simp [formatVersion, String.data_append]

theorem dot_head (l : List Char) : ∀ c t, ('.' :: l) = c :: t → c.isDigit = false := by
  intro c t h
  obtain ⟨rfl, -⟩ := List.cons.inj h
  decide

theorem parseVerChars_decomp (d1 d2 d3 rest : List Char)
    (h1 : ∀ c ∈ d1, c.isDigit = true) (h2 : ∀ c ∈ d2, c.isDigit = true)
    (h3 : ∀ c ∈ d3, c.isDigit = true)
    (n1 : d1 ≠ []) (n2 : d2 ≠ []) (n3 : d3 ≠ [])
    (hr : ∀ c t, rest = c :: t → c.isDigit = false) :
    parseVerChars (d1 ++ '.' :: (d2 ++ '.' :: (d3 ++ rest))) =
      some (digitsToNat d1, digitsToNat d2, digitsToNat d3) := by
  have t1 := takeDigits_spec d1 ('.' :: (d2 ++ '.' :: (d3 ++ rest))) h1 (dot_head _)
  have t2 := takeDigits_spec d2 ('.' :: (d3 ++ rest)) h2 (dot_head _)
  have t3 := takeDigits_spec d3 rest h3 hr
  simp [parseVerChars, t1, t2, t3, n1, n2, n3]

theorem parseVersion_formatVersion (a b c : Nat) :
    parseVersion (formatVersion a b c) = some (a, b, c) := by
  rw [parseVersion, formatVersion_data]
  rw [show stripLeadingV ('v' :: ((natToStr a).data ++ '.' :: ((natToStr b).data ++ '.' :: (natToStr c).data)))
      = (natToStr a).data ++ '.' :: ((natToStr b).data ++ '.' :: (natToStr c).data) from rfl]
  rw [show (natToStr c).data = (natToStr c).data ++ [] by simp]
  rw [parseVerChars_decomp (natToStr a).data (natToStr b).data (natToStr c).data []
    (natToStr_isDigit a) (natToStr_isDigit b) (natToStr_isDigit c)
    (natToStr_ne_nil a) (natToStr_ne_nil b) (natToStr_ne_nil c)
    (by intro x t h; cases h)]
  rw [natToStr_val, natToStr_val, natToStr_val]

end GitRepo

namespace GitRepo

theorem parseVerChars_some (l : List Char) (a b c : Nat)
    (h : parseVerChars l = some (a, b, c)) : VersionDecomp l a b c := by
  simp only [parseVerChars] at h
  split at h
  next => cases h
  next e1 =>
  split at h
  next => cases h
  next c1 r2 heq1 =>
  split at h
  case isFalse => cases h
  case isTrue ec1 =>
  split at h
  next => cases h
  next e2 =>
  split at h
  next => cases h
  next c2 r4 heq2 =>
  split at h
  case isFalse => cases h
  case isTrue ec2 =>
  split at h
  next => cases h
  next e3 =>
  simp only [Option.some.injEq, Prod.mk.injEq] at h
  obtain ⟨rfl, rfl, rfl⟩ := h
  subst ec1
  subst ec2
  refine ⟨(takeDigits l).1, (takeDigits r2).1, (takeDigits r4).1, (takeDigits r4).2,
    ?_, e1, e2, e3, takeDigits_isDigit l, takeDigits_isDigit r2, takeDigits_isDigit r4,
    takeDigits_rest r4, rfl, rfl, rfl⟩
  have hl := takeDigits_append l
  have hh2 := takeDigits_append r2
  have hh4 := takeDigits_append r4
  rw [heq1] at hl
  rw [heq2] at hh2
  rw [hh4, hh2, hl]

theorem parseVerChars_hasPrefix (l : List Char) (h : HasVerPrefix l) :
    ∃ t, parseVerChars l = some t := by
  obtain ⟨d1, d2, d3, rest, rfl, n1, n2, n3, h1, h2, h3⟩ := h
  have t1 := takeDigits_spec d1 ('.' :: (d2 ++ '.' :: (d3 ++ rest))) h1 (dot_head _)
  have t2 := takeDigits_spec d2 ('.' :: (d3 ++ rest)) h2 (dot_head _)
  have t3 := takeDigits_all_digits d3 rest h3
  refine ⟨(digitsToNat d1, digitsToNat d2, digitsToNat (d3 ++ (takeDigits rest).1)), ?_⟩
  simp [parseVerChars, t1, t2, t3, n1, n2, n3]

theorem versionDecomp_parseVerChars (l : List Char) (a b c : Nat)
    (h : VersionDecomp l a b c) : parseVerChars l = some (a, b, c) := by
  obtain ⟨d1, d2, d3, rest, rfl, n1, n2, n3, h1, h2, h3, hr, rfl, rfl, rfl⟩ := h
  exact parseVerChars_decomp d1 d2 d3 rest h1 h2 h3 n1 n2 n3 hr

end GitRepo

namespace GitRepo

open Classical in
/-- C1: `determineBumpType` is total over all strings and scans
case-insensitively for the literal markers `[skip]`, `[major]`, `[minor]`,
`[patch]` in that exact priority order, returning the bump type of the
highest-priority marker occurring anywhere in the string and `minor` when no
marker is present; in particular any string containing `[skip]` (in any
letter case) classifies as `skip` even when `[major]` also occurs. -/
theorem determineBumpType_marker_priority :
    (∀ s : String,
      determineBumpType s =
        if OccursIn "[skip]".data (toLowerChars s) then "skip"
        else if OccursIn "[major]".data (toLowerChars s) then "major"
        else if OccursIn "[minor]".data (toLowerChars s) then "minor"
        else if OccursIn "[patch]".data (toLowerChars s) then "patch"
        else "minor")
    ∧ determineBumpType "[SKIP] noop" = "skip"
    ∧ determineBumpType "no marker here" = "minor"
    ∧ determineBumpType "[skip][major]" = "skip"
    ∧ determineBumpType "Fix bug [patch]" = "patch" := by
  refine ⟨fun s => ?_, by decide, by decide, by decide, by decide⟩
  simp only [determineBumpType, strContains_iff]

/-- C2: `parseVersion` strips an optional leading `v` and succeeds with the
three base-10 integers exactly when the remainder begins with a
`\d+.\d+.\d+` prefix, ignoring trailing text; otherwise it fails.  In
particular `v1.2.3` and `1.2.3-rc1` both parse to `(1,2,3)` while the empty
string and `abc` fail. -/
theorem parseVersion_characterisation :
    (∀ (s : String) (a b c : Nat),
      parseVersion s = some (a, b, c) ↔ VersionDecomp (stripLeadingV s.data) a b c)
    ∧ (∀ s : String, (∃ t, parseVersion s = some t) ↔ HasVerPrefix (stripLeadingV s.data))
    ∧ parseVersion "v1.2.3" = some (1, 2, 3)
    ∧ parseVersion "1.2.3-rc1" = some (1, 2, 3)
    ∧ parseVersion "" = none
    ∧ parseVersion "abc" = none := by
  refine ⟨fun s a b c => ⟨fun h => parseVerChars_some _ a b c h,
      fun h => versionDecomp_parseVerChars _ a b c h⟩,
    fun s => ⟨?_, fun h => parseVerChars_hasPrefix _ h⟩,
    by decide, by decide, by decide, by decide⟩
  rintro ⟨⟨a, b, c⟩, h⟩
  obtain ⟨d1, d2, d3, rest, he, n1, n2, n3, h1, h2, h3, -⟩ := parseVerChars_some _ a b c h
  exact ⟨d1, d2, d3, rest, he, n1, n2, n3, h1, h2, h3⟩

end GitRepo

namespace GitRepo

/-- C3: for every current version `(major, minor, patch)`, the bump
arithmetic resets lower-significance components to zero — `major` yields
`(major+1, 0, 0)`, `minor` yields `(major, minor+1, 0)`, `patch` yields
`(major, minor, patch+1)` — and `GetNextVersion` formats the result as
`v<major>.<minor>.<patch>`; in particular `v1.0.0` with message
`[major] break api` yields `v2.0.0` and `v2.3.4` with `[patch] fix` yields
`v2.3.5`. -/
theorem getNextVersion_bump_arithmetic :
    (∀ a b c : Nat,
      bumpTriple a b c "major" = (a + 1, 0, 0)
      ∧ bumpTriple a b c "minor" = (a, b + 1, 0)
      ∧ bumpTriple a b c "patch" = (a, b, c + 1))
    ∧ (∀ a b c : Nat,
      resolveVersion (formatVersion a b c) (some "[major] break api") ""
        = .ok (formatVersion (a + 1) 0 0)
      ∧ resolveVersion (formatVersion a b c) (some "[patch] fix") ""
        = .ok (formatVersion a b (c + 1)))
    ∧ GetNextVersion (some "v1.0.0") (some "[major] break api") "" = .ok "v2.0.0"
    ∧ GetNextVersion (some "v2.3.4") (some "[patch] fix") "" = .ok "v2.3.5" := by
  refine ⟨fun a b c => ⟨by simp [bumpTriple], by simp [bumpTriple], by simp [bumpTriple]⟩,
    fun a b c => ⟨?_, ?_⟩, by decide, by decide⟩
  · have hb : effectiveBump (some "[major] break api") "" = "major" := by decide
    rw [resolveVersion, parseVersion_formatVersion]
    simp [hb, bumpTriple]
  · have hb : effectiveBump (some "[patch] fix") "" = "patch" := by decide
    rw [resolveVersion, parseVersion_formatVersion]
    simp [hb, bumpTriple]

/-- C4: an empty or absent latest-tag text makes `GetNextVersion` resolve
against the default current version `0.0.0` and never take the parse-error
path — the outcome is always a skip signal or a successful version; in
particular an empty tag list with message `add feature` and no forced bump
yields `v0.1.0`. -/
theorem getNextVersion_empty_tag_default :
    (∀ (commitMsg : Option String) (forceBump : String),
      GetNextVersion none commitMsg forceBump
        = resolveVersion "v0.0.0" commitMsg forceBump)
    ∧ (∀ (commitMsg : Option String) (forceBump : String),
      GetNextVersion (some "") commitMsg forceBump
        = resolveVersion "v0.0.0" commitMsg forceBump)
    ∧ (∀ (commitMsg : Option String) (forceBump : String),
      GetNextVersion (some "") commitMsg forceBump = .error .versionBumpSkipped
      ∨ ∃ v, GetNextVersion (some "") commitMsg forceBump = .ok v)
    ∧ GetNextVersion (some "") (some "add feature") "" = .ok "v0.1.0" := by
  refine ⟨fun cm fb => rfl, fun cm fb => rfl, fun cm fb => ?_, by decide⟩
  have h : GetNextVersion (some "") cm fb = resolveVersion "v0.0.0" cm fb := rfl
  rw [h, resolveVersion]
  rw [show parseVersion "v0.0.0" = some (0, 0, 0) by decide]
  by_cases hb : effectiveBump cm fb = "skip"
  · left
    simp [hb]
  · right
    refine ⟨formatVersion (bumpTriple 0 0 0 (effectiveBump cm fb)).1
      (bumpTriple 0 0 0 (effectiveBump cm fb)).2.1
      (bumpTriple 0 0 0 (effectiveBump cm fb)).2.2, ?_⟩
    simp [hb]

/-- C5: whenever the effective bump type is `skip` (from a `[skip]` marker
or a forced `skip`), resolution returns the distinguished skip outcome
carrying no version, and `TagAndPush` then returns without executing the
tag-create/push pipeline, creating no tag. -/
theorem skip_shortcircuits_resolution_and_publish :
    (∀ (latestTag : String) (commitMsg : Option String) (forceBump : String) (a b c : Nat),
      parseVersion latestTag = some (a, b, c) →
      effectiveBump commitMsg forceBump = "skip" →
      resolveVersion latestTag commitMsg forceBump = .error .versionBumpSkipped)
    ∧ (∀ (tagFetch commitMsg : Option String) (pushOutcome : Option String)
        (forceBump message : String),
      GetNextVersion tagFetch commitMsg forceBump = .error .versionBumpSkipped →
      TagAndPush tagFetch commitMsg pushOutcome "" forceBump message
        = ⟨.ok "", none⟩) := by
  constructor
  · intro lt cm fb a b c hp hb
    rw [resolveVersion, hp]
    simp [hb]
  · intro tf cm po fb msg h
    simp [TagAndPush, h]

/-- C6: a non-empty `forceBump` outside `{skip, patch, minor, major}` is
used verbatim without validation, applies none of the increments, and still
returns a non-skip result equal to the unchanged current version, formatted
as `v<major>.<minor>.<patch>`. -/
theorem unrecognized_forceBump_noop :
    ∀ fb : String, fb ≠ "" → fb ≠ "skip" → fb ≠ "major" → fb ≠ "minor" → fb ≠ "patch" →
    ∀ (a b c : Nat) (commitMsg : Option String),
      bumpTriple a b c fb = (a, b, c)
      ∧ resolveVersion (formatVersion a b c) commitMsg fb
          = .ok (formatVersion a b c) := by
  intro fb h0 hs hM hm hp a b c cm
  constructor
  · simp [bumpTriple, hM, hm, hp]
  · rw [resolveVersion, parseVersion_formatVersion]
    simp [effectiveBump, h0, hs, hM, hm, hp, bumpTriple]

theorem unrecognized_forceBump_noop_witness :
    bumpTriple 1 2 3 "bogus" = (1, 2, 3)
    ∧ resolveVersion (formatVersion 1 2 3) (some "[major] x") "bogus"
        = .ok (formatVersion 1 2 3) :=
  unrecognized_forceBump_noop "bogus" (by decide) (by decide) (by decide)
    (by decide) (by decide) 1 2 3 (some "[major] x")

/-- C7: parse and publish errors surface immediately with diagnostic
context: a latest tag that does not parse makes resolution fail carrying the
offending tag string, both directly and through `TagAndPush`; a failing
tag-create/push pipeline makes `TagAndPush` fail carrying the underlying
error. -/
theorem errors_propagate_with_context :
    (∀ (latestTag : String) (commitMsg : Option String) (forceBump : String),
      parseVersion latestTag = none →
      resolveVersion latestTag commitMsg forceBump
        = .error (.invalidVersionFormat latestTag))
    ∧ (∀ (tagFetch commitMsg : Option String) (forceBump message tag : String),
      GetNextVersion tagFetch commitMsg forceBump = .error (.invalidVersionFormat tag) →
      TagAndPush tagFetch commitMsg none "" forceBump message
        = ⟨.error ("failed to determine next version: failed to parse version "
            ++ tag), none⟩)
    ∧ (∀ (tagFetch commitMsg : Option String) (e version forceBump message : String),
      version ≠ "" →
      TagAndPush tagFetch commitMsg (some e) version forceBump message
        = ⟨.error ("failed to create and push tag: " ++ e),
            some (version, if message = "" then "Release " ++ version else message)⟩) := by
  refine ⟨fun lt cm fb hp => ?_, fun tf cm fb msg tag h => ?_, fun tf cm e v fb msg hv => ?_⟩
  · rw [resolveVersion, hp]
  · simp [TagAndPush, h]
  · simp [TagAndPush, hv]

theorem errors_propagate_with_context_witness :
    resolveVersion "abc" (some "msg") "" = .error (.invalidVersionFormat "abc")
    ∧ TagAndPush (some "abc") (some "msg") none "" "" ""
        = ⟨.error ("failed to determine next version: failed to parse version "
            ++ "abc"), none⟩
    ∧ TagAndPush (some "v1.0.0") (some "msg") (some "remote rejected") "v2.0.0" "" ""
        = ⟨.error ("failed to create and push tag: " ++ "remote rejected"),
            some ("v2.0.0", if ("" : String) = "" then "Release " ++ "v2.0.0" else "")⟩ :=
  ⟨errors_propagate_with_context.1 "abc" (some "msg") "" (by decide),
   errors_propagate_with_context.2.1 (some "abc") (some "msg") "" "" "abc" (by decide),
   errors_propagate_with_context.2.2 (some "v1.0.0") (some "msg") "remote rejected"
     "v2.0.0" "" "" (by decide)⟩

/-- C8: for every current version and every effective bump type among
`major`, `minor`, `patch`, the bumped triple is strictly greater than the
input under the standard lexicographic semantic-version ordering, and
resolution returns exactly that bumped triple formatted. -/
theorem bump_strictly_increases :
    ∀ (a b c : Nat) (bt : String),
      bt = "major" ∨ bt = "minor" ∨ bt = "patch" →
      semverLt (a, b, c) (bumpTriple a b c bt)
      ∧ ∀ commitMsg, resolveVersion (formatVersion a b c) commitMsg bt
          = .ok (formatVersion (bumpTriple a b c bt).1
              (bumpTriple a b c bt).2.1 (bumpTriple a b c bt).2.2) := by
  intro a b c bt hbt
  have hres : ∀ commitMsg, effectiveBump commitMsg bt = bt → bt ≠ "skip" →
      resolveVersion (formatVersion a b c) commitMsg bt
        = .ok (formatVersion (bumpTriple a b c bt).1
            (bumpTriple a b c bt).2.1 (bumpTriple a b c bt).2.2) := by
    intro cm he hns
    rw [resolveVersion, parseVersion_formatVersion]
    simp [he, hns]
  rcases hbt with rfl | rfl | rfl
  · exact ⟨Or.inl (by simp [bumpTriple]),
      fun cm => hres cm (by simp [effectiveBump]) (by decide)⟩
  · exact ⟨Or.inr ⟨by simp [bumpTriple], Or.inl (by simp [bumpTriple])⟩,
      fun cm => hres cm (by simp [effectiveBump]) (by decide)⟩
  · exact ⟨Or.inr ⟨by simp [bumpTriple], Or.inr ⟨by simp [bumpTriple], by simp [bumpTriple]⟩⟩,
      fun cm => hres cm (by simp [effectiveBump]) (by decide)⟩

theorem bump_strictly_increases_witness :
    semverLt (1, 2, 3) (bumpTriple 1 2 3 "major")
    ∧ resolveVersion (formatVersion 1 2 3) none "major"
        = .ok (formatVersion (bumpTriple 1 2 3 "major").1
            (bumpTriple 1 2 3 "major").2.1 (bumpTriple 1 2 3 "major").2.2) :=
  ⟨(bump_strictly_increases 1 2 3 "major" (Or.inl rfl)).1,
   (bump_strictly_increases 1 2 3 "major" (Or.inl rfl)).2 none⟩

/-- C9: every successful resolution result is the formatted string of some
triple, and parsing that string returns exactly that triple. -/
theorem resolve_format_parse_roundtrip :
    ∀ (latestTag : String) (commitMsg : Option String) (forceBump s : String),
      resolveVersion latestTag commitMsg forceBump = .ok s →
      ∃ a b c, s = formatVersion a b c ∧ parseVersion s = some (a, b, c) := by
  intro lt cm fb s h
  rw [resolveVersion] at h
  cases hp : parseVersion lt with
  | none => rw [hp] at h; cases h
  | some t =>
    obtain ⟨a, b, c⟩ := t
    rw [hp] at h
    by_cases hb : effectiveBump cm fb = "skip"
    · simp [hb] at h
    · simp only [hb, if_neg, ite_false] at h
      simp at h
      refine ⟨(bumpTriple a b c (effectiveBump cm fb)).1,
        (bumpTriple a b c (effectiveBump cm fb)).2.1,
        (bumpTriple a b c (effectiveBump cm fb)).2.2, h.symm, ?_⟩
      rw [← h]
      exact parseVersion_formatVersion _ _ _

theorem resolve_format_parse_roundtrip_witness :
    ∃ a b c, "v1.2.4" = formatVersion a b c ∧ parseVersion "v1.2.4" = some (a, b, c) :=
  resolve_format_parse_roundtrip "v1.2.3" none "patch" "v1.2.4" (by decide)

/-- C10: noninterference of the commit message under a forced bump — with a
non-empty `forceBump` the commit message is never consulted, so any two
commit-message states give the same result. -/
theorem forced_bump_ignores_commit_message :
    ∀ forceBump : String, forceBump ≠ "" →
    ∀ (tagFetch msg1 msg2 : Option String),
      GetNextVersion tagFetch msg1 forceBump = GetNextVersion tagFetch msg2 forceBump := by
  intro fb h tf m1 m2
  rw [GetNextVersion, GetNextVersion, resolveVersion, resolveVersion]
  cases parseVersion (extractLatestTag tf) with
  | none => rfl
  | some t => simp [effectiveBump, h]

theorem forced_bump_ignores_commit_message_witness :
    GetNextVersion (some "v1.0.0") (some "[skip] a") "major"
      = GetNextVersion (some "v1.0.0") (some "[patch] b") "major" :=
  forced_bump_ignores_commit_message "major" (by decide) (some "v1.0.0")
    (some "[skip] a") (some "[patch] b")

end GitRepo

namespace GitRepo

theorem skip_shortcircuits_resolution_and_publish_witness :
    resolveVersion "v1.0.0" (some "chore [skip] noop") "" = .error .versionBumpSkipped
    ∧ TagAndPush (some "v1.0.0") (some "chore [skip] noop") none "" "" "msg"
        = ⟨.ok "", none⟩ :=
  ⟨skip_shortcircuits_resolution_and_publish.1 "v1.0.0" (some "chore [skip] noop") ""
      1 0 0 (by decide) (by decide),
   skip_shortcircuits_resolution_and_publish.2 (some "v1.0.0") (some "chore [skip] noop")
      none "" "msg" (by decide)⟩

end GitRepo
